import Mathlib

/-!
A verification development for the pure_vorbis Vorbis decoder.

This file gives a shallow embedding in Lean 4 of the parts of the
`pure_vorbis` Rust crate that the verified properties below are about:

* the LSB-first bit reader (`src/bitstream.rs`),
* the bit utilities (`src/util.rs`),
* the decode path of the huffman decoder (`src/huffman.rs`),
* codebooks with their VQ lookup tables (`src/codebook.rs`),
* the floor-1 descriptor decode path (`src/floor.rs`),
* the residue descriptor reader and residue decode (`src/residue.rs`),
* the identification header reader (`src/header.rs`),
* window geometry (`src/window.rs`),
* the frame-kind state machine of the decoder (`src/decoder.rs`).

Modelling conventions:

* Machine integers are modelled as `Nat` (unsigned) or `Int` (signed), with
  explicit `% 2^w` where the Rust code can wrap (`as u16` casts, `u64`
  shifts).  `i32`/`usize` truncating division is `Int.tdiv` / `Nat.div`.
* Rust `Result` together with the `&mut` state that survives an early
  `return Err(..)` is modelled by the inductive `StRes ε σ α`, whose error
  constructor also carries the state at the point of failure.
* A Rust panic (`unimplemented!()`, failed `assert!`, index out of bounds,
  division by zero, `usize` underflow) is modelled by the distinguished
  error `PErr.rPanic`; a loop that Rust would run forever is modelled by
  `PErr.diverged` via an explicit fuel argument.
* `f32` sample values never influence any verified property (all the
  properties are about control flow, positions and integer data), so the
  sample type of the residue pipeline is modelled as exact `Int` values and
  `*r += v` as integer addition.
* The byte source wrapped by the bit reader is a `List Nat` of bytes; its
  `read` fills at most 4 bytes per call, like the `Cursor` sources the
  crate is used with.
-/

/-- Rust `std::io::ErrorKind` restricted to what a list-backed byte source can
produce through this crate: `UnexpectedEof`. -/
inductive IoEK where
  | unexpectedEof
deriving DecidableEq, Repr

/-- Rust `error::Error` of `src/error.rs` (the `io::Error` payload is reduced to
its kind, which is all the crate ever inspects). -/
inductive Err where
  | undecodable (msg : String)
  | wrongPacketKind (msg : String)
  | expectedEof (msg : String)
  | io (k : IoEK)
deriving DecidableEq, Repr

/-- Rust `error::ErrorKind` of `src/error.rs`. -/
inductive ErrK where
  | undecodable
  | wrongPacketKind
  | expectedEof
  | io
deriving DecidableEq, Repr

/-- Rust `Error::kind` of `src/error.rs`. -/
def Err.kind : Err → ErrK
  | .undecodable _ => .undecodable
  | .wrongPacketKind _ => .wrongPacketKind
  | .expectedEof _ => .expectedEof
  | .io _ => .io

/-- Rust `expect_eof` of `src/error.rs`: an `Io` error of kind `UnexpectedEof`
becomes `ExpectedEof`; everything else is unchanged. -/
def expectEofErr : Err → Err
  | .io .unexpectedEof => .expectedEof "Expected EOF"
  | e => e

/-- Errors of the decode pipeline: a returned `error::Error`, a Rust panic
(`unimplemented!()`, failed assertion, out-of-bounds index, division by
zero, `usize` underflow), or divergence of a loop (modelled by fuel). -/
inductive PErr where
  | e (er : Err)
  | rPanic
  | diverged
deriving DecidableEq, Repr

/-- The result of running an effectful Rust function with a `&mut` state of
type `σ`: both the `Ok` and the `Err` outcome leave the state behind,
exactly as a Rust early `return Err(..)` leaves the borrowed state. -/
inductive StRes (ε σ α : Type) where
  | ok (a : α) (s : σ)
  | err (er : ε) (s : σ)
deriving DecidableEq, Repr

/-- Rust `lsb_mask` of `src/util.rs`: `0xFFFF_FFFF >> (32 - len)`. -/
def lsbMask (len : Nat) : Nat :=
  0xFFFFFFFF >>> (32 - len)

/-- Rust `<u32 as Bits>::ls_bits` of `src/util.rs`.  Rust panics for
`len > 32`; that case is unreachable from every call site embedded here. -/
def lsBits32 (x len : Nat) : Nat :=
  if len = 0 then 0
  else if len = 32 then x
  else if len ≤ 31 then x &&& lsbMask len
  else 0

/-- Fuel-based bit length, structurally recursive so that it evaluates by
`decide`/`rfl`. -/
def ilogAux : Nat → Nat → Nat
  | 0, _ => 0
  | _ + 1, 0 => 0
  | fuel + 1, x + 1 => ilogAux fuel ((x + 1) / 2) + 1

/-- Rust `Bits::ilog` of `src/util.rs` (`32 - x.leading_zeros()`, i.e.
`⌊log2 x⌋ + 1` for `x ≥ 1` and `0` for `0`); the same formula serves the
`u8`/`u16`/`u32` instances. -/
def ilog (x : Nat) : Nat :=
  ilogAux 64 x

/-- Rust `Bits::is_bit_set` of `src/util.rs`. -/
def isBitSet (x offset : Nat) : Bool :=
  x &&& (1 <<< offset) != 0

/-- The state of `BitReader<R>` of `src/bitstream.rs`: the wrapped byte
source (a list of bytes, as produced by a `Cursor`), the 64-bit
accumulator `bit_buf` and the count `bit_buf_left` of valid buffered
bits. -/
structure Brd where
  input : List Nat
  bitBuf : Nat
  bitBufLeft : Nat
deriving DecidableEq, Repr

/-- Little-endian assembly of up to four bytes, as the unrolled byte ORs
in `BitReader::fill_bit_buf` perform it. -/
def bytesToBitBuf : List Nat → Nat
  | [] => 0
  | b :: rest => b ||| (bytesToBitBuf rest <<< 8)

/-- Rust `BitReader::fill_bit_buf` of `src/bitstream.rs`: called only with
`bit_buf_left == 0`; reads at most 4 bytes from the source.  When the
source is exhausted (`read == 0`) the accumulator is left untouched. -/
def fillBitBuf (s : Brd) : Brd :=
  let toRead := min 4 s.input.length
  if toRead = 0 then
    { s with bitBufLeft := 0 }
  else
    { input := s.input.drop toRead
      bitBuf := bytesToBitBuf (s.input.take toRead)
      bitBufLeft := toRead * 8 }

/-- Rust `BitReader::read_bit_buf` of `src/bitstream.rs`.  Returns the updated
`target`, the number of bits delivered, and the updated reader. -/
def readBitBuf (s : Brd) (target offset len : Nat) : Nat × Nat × Brd :=
  if len = 0 ∨ s.bitBufLeft = 0 then
    (target, 0, s)
  else
    let canRead := min s.bitBufLeft len
    let bits := lsBits32 (s.bitBuf % 2 ^ 32) canRead
    let target' := if offset = 0 then bits else lsBits32 target offset ||| (bits <<< offset)
    let s' :=
      if canRead = s.bitBufLeft then
        { s with bitBuf := 0, bitBufLeft := 0 }
      else
        { s with bitBuf := s.bitBuf >>> canRead, bitBufLeft := s.bitBufLeft - canRead }
    (target', canRead, s')

/-- Rust `BitReader::try_read_u32_bits` of `src/bitstream.rs`: reads at most
`len` bits, returning the value, the number of bits actually delivered and
the updated reader.  With a list-backed source no I/O error is possible. -/
def tryReadU32Bits (len : Nat) (s : Brd) : (Nat × Nat) × Brd :=
  if len = 0 then
    ((0, 0), s)
  else
    let s1 := if s.bitBufLeft = 0 then fillBitBuf s else s
    let (r1, read1, s2) := readBitBuf s1 0 0 len
    if read1 ≠ 0 ∧ read1 < len ∧ s2.bitBufLeft = 0 then
      let s3 := fillBitBuf s2
      let (r2, read2, s4) := readBitBuf s3 r1 read1 (len - read1)
      ((r2, read1 + read2), s4)
    else
      ((r1, read1), s2)

/-- Rust `BitReader::unread_u32_bits` of `src/bitstream.rs`.  The crate asserts
`bit_buf_left + len_bits <= 64`; the `u64` shift is modelled mod `2^64`. -/
def unreadU32Bits (bits len : Nat) (s : Brd) : Brd :=
  if len = 0 then s
  else
    { s with
      bitBuf := ((s.bitBuf <<< len) % 2 ^ 64) ||| lsBits32 bits len
      bitBufLeft := s.bitBufLeft + len }

/-- Rust `BitRead::read_u32_bits` of `src/bitstream.rs`: a strict read that
fails with `UnexpectedEof` when fewer than `len` bits are available.  The
partially consumed reader survives the failure, as it does behind the
`&mut` borrow in Rust. -/
def readU32Bits (len : Nat) (s : Brd) : StRes IoEK Brd Nat :=
  let ((r, rLen), s') := tryReadU32Bits len s
  if rLen = len then .ok r s' else .err .unexpectedEof s'

/-- Rust `BitRead::read_u8_bits` (`len ≤ 8` asserted by the crate). -/
def readU8Bits (len : Nat) (s : Brd) : StRes IoEK Brd Nat :=
  readU32Bits len s

/-- Rust `BitRead::read_u16_bits` (`len ≤ 16` asserted by the crate). -/
def readU16Bits (len : Nat) (s : Brd) : StRes IoEK Brd Nat :=
  readU32Bits len s

/-- Rust `BitRead::read_u8`. -/
def readU8 (s : Brd) : StRes IoEK Brd Nat :=
  readU32Bits 8 s

/-- Rust `BitRead::read_u16`. -/
def readU16 (s : Brd) : StRes IoEK Brd Nat :=
  readU32Bits 16 s

/-- Rust `BitRead::read_u32`. -/
def readU32 (s : Brd) : StRes IoEK Brd Nat :=
  readU32Bits 32 s

/-- Rust `BitRead::read_bool`. -/
def readBool (s : Brd) : StRes IoEK Brd Bool :=
  match readU32Bits 1 s with
  | .ok v s' => .ok (v &&& 1 == 1) s'
  | .err e s' => .err e s'

/-- Rust `BitRead::read_i32_bits`: `len - 1` magnitude bits then one sign bit;
a set sign bit negates the value. -/
def readI32Bits (len : Nat) (s : Brd) : StRes IoEK Brd Int :=
  match readU32Bits (len - 1) s with
  | .err e s' => .err e s'
  | .ok u s' =>
    match readBool s' with
    | .err e s'' => .err e s''
    | .ok sign s'' => .ok (if sign then -(u : Int) else (u : Int)) s''

/-- Rust `BitRead::read_i32`. -/
def readI32 (s : Brd) : StRes IoEK Brd Int :=
  readI32Bits 32 s

/-- Rust `CodeValue` of `src/huffman.rs`. -/
structure CodeValue where
  value : Nat
  len : Nat
deriving DecidableEq, Repr

/-- Rust `LookupEntry` of `src/huffman.rs` (the direct-lookup table entry). -/
inductive LookupEntry where
  | code (c : CodeValue)
  | longCode
  | null
deriving DecidableEq, Repr

/-- Rust `LongCode` of `src/huffman.rs`, after `build` (the sort key plays no
role in `decode` and is dropped). -/
structure LongCode where
  value : Nat
  code : Nat
  len : Nat
deriving DecidableEq, Repr

/-- Rust `HuffmanDecoder` of `src/huffman.rs`: the two-tier table used by
`decode`. -/
structure HuffmanDecoder where
  entries : List LookupEntry
  lenBits : Nat
  longCodes : List LongCode
  maxCodeLen : Nat
deriving DecidableEq, Repr

/-- Rust `HuffmanDecoder::find_long_code` of `src/huffman.rs`: the first long
code whose length fits and whose low bits match. -/
def findLongCode (h : HuffmanDecoder) (bits len : Nat) : Except Err CodeValue :=
  match h.longCodes.find? (fun lc =>
      lc.len ≤ len && lsBits32 lc.code lc.len == lsBits32 bits lc.len) with
  | some lc => .ok ⟨lc.value, lc.len⟩
  | none => .error (.undecodable "Incomplete or unknown Huffman code")

/-- The tail of `HuffmanDecoder::decode`: push back the unused bits when
the matched code is shorter than what was read, fail with `UnexpectedEof`
when it is longer. -/
def huffmanFinish (c : CodeValue) (codeBits read : Nat) (s : Brd) : StRes PErr Brd Nat :=
  if c.len < read then
    .ok c.value (unreadU32Bits (codeBits >>> c.len) (read - c.len) s)
  else if c.len > read then
    .err (.e (.io .unexpectedEof)) s
  else
    .ok c.value s

/-- Rust `HuffmanDecoder::decode` of `src/huffman.rs`. -/
def HuffmanDecoder.decode (h : HuffmanDecoder) (s : Brd) : StRes PErr Brd Nat :=
  let lookupLenBits := min h.maxCodeLen h.lenBits
  let ((codeBits, read), s1) := tryReadU32Bits lookupLenBits s
  if read = 0 then
    .err (.e (.io .unexpectedEof)) s1
  else
    match h.entries.get? codeBits with
    | none => .err .rPanic s1
    | some (.code c) => huffmanFinish c codeBits read s1
    | some .null => .err (.e (.undecodable "Matched a null Huffman code entry")) s1
    | some .longCode =>
      let ((r0, r1), s2) := tryReadU32Bits (h.maxCodeLen - lookupLenBits) s1
      let read' := read + r1
      if read' = 0 then
        .err (.e (.io .unexpectedEof)) s2
      else
        let codeBits' := codeBits ||| ((r0 <<< lookupLenBits) % 2 ^ 32)
        match findLongCode h codeBits' read' with
        | .error e => .err (.e e) s2
        | .ok c => huffmanFinish c codeBits' read' s2

/-- Rust `LookupKind` of `src/codebook.rs`. -/
inductive LookupKind where
  | lookup1
  | lookup2
deriving DecidableEq, Repr

/-- Rust `LookupTable` of `src/codebook.rs`.  The dequantized `f32`
multiplicands are modelled as exact `Int` values (see the header
comment). -/
structure LookupTable where
  kind : LookupKind
  len : Nat
  mults : List Int
  seqP : Bool
deriving DecidableEq, Repr

/-- One step of `LookupTable::lookup1`: remaining positions, the running
index divisor and the `seq_p` accumulator. -/
def lookup1Go (t : LookupTable) (offset : Nat) :
    Nat → Nat → Int → List Int → Except Unit (List Int)
  | 0, _, _, acc => .ok acc.reverse
  | n + 1, indexDivisor, last, acc =>
    if t.mults.length = 0 then .error ()
    else
      let multOffset := offset / indexDivisor % t.mults.length
      let value := t.mults.getD multOffset 0 + last
      lookup1Go t offset n (indexDivisor * t.mults.length)
        (if t.seqP then value else last) (value :: acc)

/-- Rust `LookupTable::lookup1` of `src/codebook.rs`, as the list of the `len`
values it pushes, in push order.  `.error` marks the Rust panic on an
empty multiplicand vector (`% 0`). -/
def lookup1Vals (t : LookupTable) (offset : Nat) : Except Unit (List Int) :=
  lookup1Go t offset t.len 1 0 []

/-- One step of `LookupTable::lookup2` over the iterator of multiplicands
starting at `offset * len`. -/
def lookup2Go (t : LookupTable) : Nat → Nat → Int → List Int → Except Unit (List Int)
  | 0, _, _, acc => .ok acc.reverse
  | n + 1, pos, last, acc =>
    match t.mults.get? pos with
    | none => .error ()
    | some m =>
      let value := m + last
      lookup2Go t n (pos + 1) (if t.seqP then value else last) (value :: acc)

/-- Rust `LookupTable::lookup2` of `src/codebook.rs`, as the list of the `len`
values it pushes.  `.error` marks the Rust panic when the iterator is
exhausted (`unwrap`). -/
def lookup2Vals (t : LookupTable) (offset : Nat) : Except Unit (List Int) :=
  lookup2Go t t.len (offset * t.len) 0 []

/-- Rust `LookupTable::lookup` of `src/codebook.rs`. -/
def lookupVals (t : LookupTable) (offset : Nat) : Except Unit (List Int) :=
  match t.kind with
  | .lookup1 => lookup1Vals t offset
  | .lookup2 => lookup2Vals t offset

/-- Rust `Codebook` of `src/codebook.rs`. -/
structure Codebook where
  dimCount : Nat
  idx : Nat
  huffmanDecoder : HuffmanDecoder
  lookupTable : Option LookupTable
deriving DecidableEq, Repr

/-- Rust `Codebook::decode_scalar` of `src/codebook.rs`. -/
def Codebook.decodeScalar (cb : Codebook) (s : Brd) : StRes PErr Brd Nat :=
  cb.huffmanDecoder.decode s

/-- Rust `Bitrates` of `src/header.rs`. -/
structure Bitrates where
  min : Int
  nom : Int
  max : Int
deriving DecidableEq, Repr

/-- Rust `FrameKind` of `src/header.rs` (`Short = 0`, `Long = 1`). -/
inductive FrameKind where
  | short
  | long
deriving DecidableEq, Repr

/-- The discriminant of `FrameKind` (`l as usize`). -/
def FrameKind.toNat : FrameKind → Nat
  | .short => 0
  | .long => 1

/-- Rust `FrameLens` of `src/header.rs` (`end` renamed to nothing here; the two
fields are the short and long frame lengths). -/
structure FrameLens where
  short : Nat
  long : Nat
deriving DecidableEq, Repr

/-- Rust `FrameLens::get` of `src/header.rs`. -/
def FrameLens.get (fl : FrameLens) : FrameKind → Nat
  | .short => fl.short
  | .long => fl.long

/-- Rust `Header` of `src/header.rs`. -/
structure Header where
  channelCount : Nat
  sampleRate : Nat
  bitrates : Bitrates
  frameLens : FrameLens
deriving DecidableEq, Repr

/-- The tail of `Header::read` of `src/header.rs` from the first 4-bit
frame-size field on: decode `1 << short_shift` and `1 << long_shift`,
bounds-check each against `[64, 8192]`, reject `long < short`, then
require the framing bit. -/
def Header.readFrameLensTail (channelCount sampleRate : Nat) (brs : Bitrates)
    (s : Brd) : StRes Err Brd Header :=
  match readU8Bits 4 s with
  | .err e s1 => .err (.io e) s1
  | .ok shortShift s1 =>
    let frameLenShort := 1 <<< shortShift
    if frameLenShort < 64 ∨ frameLenShort > 8192 then
      .err (.undecodable "Invalid short frame length") s1
    else
      match readU8Bits 4 s1 with
      | .err e s2 => .err (.io e) s2
      | .ok longShift s2 =>
        let frameLenLong := 1 <<< longShift
        if frameLenLong < 64 ∨ frameLenLong > 8192 then
          .err (.undecodable "Invalid long frame length") s2
        else if frameLenLong < frameLenShort then
          .err (.undecodable "Long frame is shorter than short frame") s2
        else
          match readBool s2 with
          | .err e s3 => .err (.io e) s3
          | .ok framing s3 =>
            if !framing then
              .err (.undecodable "Invalid framing bit") s3
            else
              .ok ⟨channelCount, sampleRate, brs, ⟨frameLenShort, frameLenLong⟩⟩ s3

/-- Rust `Header::read` of `src/header.rs`: version (must be 0), channel count
(> 0), sample rate (> 0), the three signed 32-bit bitrates, then the
frame lengths and the framing bit. -/
def Header.read (s : Brd) : StRes Err Brd Header :=
  match readU32 s with
  | .err e s1 => .err (.io e) s1
  | .ok version s1 =>
    if version ≠ 0 then .err (.undecodable "Unsupported Vorbis version") s1
    else
      match readU8 s1 with
      | .err e s2 => .err (.io e) s2
      | .ok channelCount s2 =>
        if channelCount = 0 then .err (.undecodable "Invalid channel count") s2
        else
          match readU32 s2 with
          | .err e s3 => .err (.io e) s3
          | .ok sampleRate s3 =>
            if sampleRate = 0 then .err (.undecodable "Invalid sample rate") s3
            else
              match readI32 s3 with
              | .err e s4 => .err (.io e) s4
              | .ok bitrateMax s4 =>
                match readI32 s4 with
                | .err e s5 => .err (.io e) s5
                | .ok bitrateNom s5 =>
                  match readI32 s5 with
                  | .err e s6 => .err (.io e) s6
                  | .ok bitrateMin s6 =>
                    Header.readFrameLensTail channelCount sampleRate
                      ⟨bitrateMin, bitrateNom, bitrateMax⟩ s6

/-- Rust `OverlapTarget` of `src/window.rs`: `Left` is the previous frame,
`Right` the current one. -/
inductive OverlapTarget where
  | left
  | right
deriving DecidableEq, Repr

/-- Rust `WindowRange` of `src/window.rs` (`end` is a Lean keyword and is
renamed `stop`). -/
structure WindowRange where
  start : Nat
  stop : Nat
deriving DecidableEq, Repr

/-- Rust `WindowRange::len`. -/
def WindowRange.len (r : WindowRange) : Nat :=
  r.stop - r.start

/-- Rust `Window` of `src/window.rs`; of the shared slope table only the length
is geometry and is kept. -/
structure Window where
  left : WindowRange
  leftSlopeStart : Nat
  right : WindowRange
  rightSlopeEnd : Nat
  slopeLen : Nat
  overlapTarget : OverlapTarget
deriving DecidableEq, Repr

/-- Rust `Window::new` of `src/window.rs`: the three geometric cases
(equal lengths, long→short, short→long). -/
def Window.new (leftLen rightLen slopeLen : Nat) : Window :=
  let leftStart := leftLen / 2
  let rightEnd := rightLen / 2
  if leftLen = rightLen then
    ⟨⟨leftStart, leftLen⟩, leftStart, ⟨0, rightEnd⟩, rightEnd, slopeLen, .left⟩
  else if leftLen > rightLen then
    let leftPoint := leftLen * 3 / 4
    let rightPoint := rightLen / 4
    ⟨⟨leftStart, leftPoint + rightPoint⟩, leftPoint - rightPoint,
      ⟨0, rightEnd⟩, rightEnd, slopeLen, .left⟩
  else
    let leftPoint := leftLen / 4
    let rightPoint := rightLen / 4
    ⟨⟨leftStart, leftLen⟩, leftStart,
      ⟨rightPoint - leftPoint, rightEnd⟩, rightPoint + leftPoint, slopeLen, .right⟩

/-- Rust `Window::len` of `src/window.rs`: the length of the overlap-target
range. -/
def Window.len (w : Window) : Nat :=
  match w.overlapTarget with
  | .left => w.left.len
  | .right => w.right.len

/-- Rust `Windows` of `src/window.rs`: the four windows in construction
order. -/
structure Windows where
  windows : List Window
deriving DecidableEq, Repr

/-- Rust `Windows::new` of `src/window.rs`: `make_slope(len)` produces a table
of length `len`, so the two shared slopes have lengths `short/2` and
`long/2`. -/
def Windows.new (frameLens : FrameLens) : Windows :=
  let shortSlopeLen := frameLens.short / 2
  let longSlopeLen := frameLens.long / 2
  ⟨[Window.new frameLens.short frameLens.short shortSlopeLen,
    Window.new frameLens.long frameLens.short shortSlopeLen,
    Window.new frameLens.short frameLens.long shortSlopeLen,
    Window.new frameLens.long frameLens.long longSlopeLen]⟩

/-- Rust `Windows::window_idx` of `src/window.rs`: `l | (r << 1)`. -/
def Windows.windowIdx (leftKind rightKind : FrameKind) : Nat :=
  leftKind.toNat ||| (rightKind.toNat <<< 1)

/-- Rust `Windows::get` of `src/window.rs`. -/
def Windows.get (ws : Windows) (leftKind rightKind : FrameKind) : Window :=
  ws.windows.getD (Windows.windowIdx leftKind rightKind)
    ⟨⟨0, 0⟩, 0, ⟨0, 0⟩, 0, 0, .left⟩

/-- The frame-kind bookkeeping of `Decoder` of `src/decoder.rs`: the
fields of the struct that determine which samples view `decode` returns
(`prev_frame_kind`, `frame_kind`, `pos`, and the frame lengths the window
set is built from).  The spectral contents of the two frame buffers do
not influence the length of the view and are not tracked. -/
structure DecoderFr where
  prevFrameKind : Option FrameKind
  frameKind : Option FrameKind
  pos : Nat
  frameLens : FrameLens
deriving DecidableEq, Repr

/-- Rust `Decoder::swap_frames` of `src/decoder.rs` (restricted to the tracked
fields): when a current frame kind exists it is promoted to the previous
kind and cleared. -/
def DecoderFr.swapFrames (d : DecoderFr) : DecoderFr :=
  if d.frameKind.isSome then
    { d with prevFrameKind := d.frameKind, frameKind := none }
  else
    d

/-- Rust `Decoder::window` of `src/decoder.rs`: defined only when both frame
kinds exist. -/
def DecoderFr.window (d : DecoderFr) : Option Window :=
  match d.prevFrameKind, d.frameKind with
  | some p, some c => some ((Windows.new d.frameLens).get p c)
  | _, _ => none

/-- The length of the `Samples` view of `Decoder::samples` of
`src/decoder.rs`: the overlap-target range of the window, or the empty range
`[0, 0)` when no window is selected. -/
def DecoderFr.samplesLen (d : DecoderFr) : Nat :=
  match d.window with
  | some w =>
    match w.overlapTarget with
    | .left => w.left.len
    | .right => w.right.len
  | none => 0

/-- The effect of a successful `Decoder::decode` call on the tracked
fields, for an audio packet whose mode selects `modeKind`
(`src/decoder.rs` lines 53-136): `swap_frames` first; if a previous frame
kind exists, `pos` grows by the length of the overlap window; finally the
current frame kind is recorded.  The floor/residue/MDCT body between
these points never touches the tracked fields. -/
def DecoderFr.decodeSuccess (d : DecoderFr) (modeKind : FrameKind) : DecoderFr :=
  let d1 := d.swapFrames
  let d2 :=
    match d1.prevFrameKind with
    | some p => { d1 with pos := d1.pos + ((Windows.new d1.frameLens).get p modeKind).len }
    | none => d1
  { d2 with frameKind := some modeKind }

/-- The effect of a failed `Decoder::decode` call on the tracked fields:
every `Err` return of `decode` happens after `swap_frames` and before any
other mutation of the tracked fields. -/
def DecoderFr.decodeFailed (d : DecoderFr) : DecoderFr :=
  d.swapFrames

/-- Rust `Decoder::reset` of `src/decoder.rs`. -/
def DecoderFr.reset (d : DecoderFr) : DecoderFr :=
  { d with prevFrameKind := none, frameKind := none, pos := 0 }

/-- The tracked fields of a freshly built decoder
(`DecoderBuilder::build` of `src/decoder.rs`). -/
def DecoderFr.fresh (frameLens : FrameLens) : DecoderFr :=
  ⟨none, none, 0, frameLens⟩

/-- Rust `floor::Class` of `src/floor.rs`. -/
structure FloorClass where
  dimCount : Nat
  subclassBitCount : Nat
  masterBook : Option Nat
  subclassBooks : List (Option Nat)
deriving DecidableEq, Repr

/-- Rust `Floor` of `src/floor.rs`. -/
structure Floor where
  mult : Nat
  range : Nat
  partClasses : List Nat
  classes : List FloorClass
  xList : List Nat
  sortedXList : List (Nat × Nat)
  neighbors : List (Nat × Nat)
deriving DecidableEq, Repr

/-- The `as u16` cast: reduce an `i32` value modulo `2^16`
(two-complement wrap). -/
def toU16 (x : Int) : Nat :=
  (x % 65536).toNat

/-- Rust `Floor::render_point` of `src/floor.rs`: the reference integer
interpolation formula, with `i32` truncating division.  The values the crate
produces keep every intermediate inside `i32` range, so wrap-around is not
modelled. -/
def renderPoint (x0 y0 x1 y1 x : Int) : Int :=
  let dy := y1 - y0
  let adx := x1 - x0
  let ady := |dy|
  let er := ady * (x - x0)
  let off := Int.tdiv er adx
  if dy < 0 then y0 - off else y0 + off

/-- Mark the Y-list entry at `j` used, preserving its value
(`result_y_list[j].1 = true`).  An out-of-range `j` would be a Rust
panic; every use below is in range. -/
def setUsed (ys : List (Nat × Bool)) (j : Nat) : List (Nat × Bool) :=
  match ys.get? j with
  | some yv => ys.set j (yv.1, true)
  | none => ys

/-- The body of the `for i in 2..result_y_list.len()` loop of
`Floor::decode_amplitude` of `src/floor.rs`, at position `i`. -/
def ampStep (f : Floor) (ys : List (Nat × Bool)) (i : Nat) : List (Nat × Bool) :=
  let nb := f.neighbors.getD (i - 2) (0, 0)
  let lowN := nb.1
  let highN := nb.2
  let predicted := renderPoint
    (f.xList.getD lowN 0) ((ys.getD lowN (0, false)).1)
    (f.xList.getD highN 0) ((ys.getD highN (0, false)).1)
    (f.xList.getD i 0)
  let highRoom := (f.range : Int) - predicted
  let lowRoom := predicted
  let room := if highRoom < lowRoom then highRoom * 2 else lowRoom * 2
  let y : Int := ((ys.getD i (0, false)).1 : Int)
  if y ≠ 0 then
    let finalY :=
      if y ≥ room then
        if highRoom > lowRoom then predicted + y - lowRoom
        else predicted - y + highRoom - 1
      else
        if Int.tmod y 2 = 0 then predicted + Int.tdiv y 2
        else predicted - Int.tdiv (y + 1) 2
    (setUsed (setUsed ys lowN) highN).set i (toU16 finalY, true)
  else
    ys.set i (toU16 predicted, false)

/-- Rust `Floor::decode_amplitude` of `src/floor.rs`: fold the step over the
positions `2 .. len`. -/
def Floor.decodeAmplitude (f : Floor) (ys : List (Nat × Bool)) : List (Nat × Bool) :=
  ((List.range ys.length).drop 2).foldl (ampStep f) ys

/-- The `for _ in 0..class.dim_count` loop of `Floor::do_begin_decode` of
`src/floor.rs`: subclass lookup, optional scalar decode (`0` when there
is no subclass book), push `(y as u16, true)`. -/
def floorDimLoop (codebooks : List Codebook) (cls : FloorClass) (csub cbits : Nat) :
    Nat → Nat → Brd → List (Nat × Bool) → StRes PErr Brd (List (Nat × Bool))
  | 0, _, s, ys => .ok ys s
  | n + 1, cval, s, ys =>
    match cls.subclassBooks.get? (cval &&& csub) with
    | none => .err .rPanic s
    | some bookOpt =>
      let cval' := cval >>> cbits
      match bookOpt with
      | none => floorDimLoop codebooks cls csub cbits n cval' s (ys ++ [(0, true)])
      | some cbIdx =>
        match codebooks.get? cbIdx with
        | none => .err .rPanic s
        | some cb =>
          match cb.decodeScalar s with
          | .err e s' => .err e s'
          | .ok y s' =>
            floorDimLoop codebooks cls csub cbits n cval' s' (ys ++ [(y % 65536, true)])

/-- The `for &part_class in self.part_classes.iter()` loop of
`Floor::do_begin_decode` of `src/floor.rs`. -/
def floorPartLoop (f : Floor) (codebooks : List Codebook) :
    List Nat → Brd → List (Nat × Bool) → StRes PErr Brd (List (Nat × Bool))
  | [], s, ys => .ok ys s
  | partClass :: rest, s, ys =>
    match f.classes.get? partClass with
    | none => .err .rPanic s
    | some cls =>
      let cbits := cls.subclassBitCount
      let csub := (1 <<< cbits) - 1
      let cvalRes : StRes PErr Brd Nat :=
        if cbits > 0 then
          match cls.masterBook with
          | none => .err .rPanic s
          | some mbIdx =>
            match codebooks.get? mbIdx with
            | none => .err .rPanic s
            | some cb => cb.decodeScalar s
        else
          .ok 0 s
      match cvalRes with
      | .err e s' => .err e s'
      | .ok cval s' =>
        match floorDimLoop codebooks cls csub cbits cls.dimCount cval s' ys with
        | .err e s'' => .err e s''
        | .ok ys' s'' => floorPartLoop f codebooks rest s'' ys'

/-- Rust `Floor::do_begin_decode` of `src/floor.rs`.  The result Y-list is
returned instead of being mutated through a `&mut Vec` (the function
starts with `truncate(0)`).  `(self.range - 1)` is a `u16` subtraction
and wraps for `range = 0`. -/
def Floor.doBeginDecode (f : Floor) (codebooks : List Codebook) (s : Brd) :
    StRes PErr Brd (List (Nat × Bool)) :=
  match readBool s with
  | .err e s1 => .err (.e (.io e)) s1
  | .ok nonZero s1 =>
    if !nonZero then .ok [] s1
    else
      let lenBits := ilog ((f.range + 65535) % 65536)
      match readU16Bits lenBits s1 with
      | .err e s2 => .err (.e (.io e)) s2
      | .ok y0 s2 =>
        match readU16Bits lenBits s2 with
        | .err e s3 => .err (.e (.io e)) s3
        | .ok y1 s3 =>
          match floorPartLoop f codebooks f.partClasses s3 [(y0, true), (y1, true)] with
          | .err e s4 => .err e s4
          | .ok ys s4 => .ok (f.decodeAmplitude ys) s4

/-- Rust `Floor::begin_decode` of `src/floor.rs`: run `do_begin_decode`, map
the result through `expect_eof`, and recover an `ExpectedEof` by emptying
the Y-list and succeeding. -/
def Floor.beginDecode (f : Floor) (codebooks : List Codebook) (s : Brd) :
    StRes PErr Brd (List (Nat × Bool)) :=
  match f.doBeginDecode codebooks s with
  | .ok ys s' => .ok ys s'
  | .err .rPanic s' => .err .rPanic s'
  | .err .diverged s' => .err .diverged s'
  | .err (.e e) s' =>
    let e' := expectEofErr e
    if e'.kind = .expectedEof then .ok [] s' else .err (.e e') s'

/-- Rust `Pusher2dStep` of `src/util.rs`. -/
inductive PStep where
  | rightDown (s0 s1 : Nat)
  | downRight (s0 s1 : Nat)
deriving DecidableEq, Repr

/-- The immutable part of `Pusher2d` of `src/util.rs`: the channel index
map, the lengths `(index_map.len(), array2d[0].len())` and the traversal
step.  The mutator is fixed to `|r, v| *r += v`, the only one the crate
uses. -/
structure PusherCfg where
  indexMap : List Nat
  lens : Nat × Nat
  step : PStep
deriving DecidableEq, Repr

/-- The mutable state of residue decoding: the bit reader, the per-channel
output buffers (`result`), and the pusher position.  In a pair the first
component plays the role of the Rust field `.0` and the second of `.1`. -/
structure RSt where
  rd : Brd
  result : List (List Int)
  ppos : Nat × Nat
deriving DecidableEq, Repr

/-- Rust `Pusher2d::push` of `src/util.rs`: add `v` into
`array2d[index_map[pos.0]][pos.1]` and advance the position in traversal
order.  Out-of-bounds indexing is the Rust panic. -/
def pusherPush (cfg : PusherCfg) (v : Int) (st : RSt) : StRes PErr RSt Unit :=
  match cfg.indexMap.get? st.ppos.1 with
  | none => .err .rPanic st
  | some index =>
    match st.result.get? index with
    | none => .err .rPanic st
    | some row =>
      match row.get? st.ppos.2 with
      | none => .err .rPanic st
      | some r =>
        let result' := st.result.set index (row.set st.ppos.2 (r + v))
        let pos' :=
          match cfg.step with
          | .rightDown step0 step1 =>
            let p1 := st.ppos.2 + step1
            if p1 ≥ cfg.lens.2 then (st.ppos.1 + step0, 0) else (st.ppos.1, p1)
          | .downRight step0 step1 =>
            let p0 := st.ppos.1 + step0
            if p0 ≥ cfg.lens.1 then (0, st.ppos.2 + step1) else (p0, st.ppos.2)
        .ok () { st with result := result', ppos := pos' }

/-- Rust `Pusher2d::advance_flat_pos` of `src/util.rs` (division by a zero
length is the Rust panic). -/
def advanceFlatPos (cfg : PusherCfg) (flatOffset : Nat) (st : RSt) : StRes PErr RSt Unit :=
  match cfg.step with
  | .rightDown _ _ =>
    if cfg.lens.2 = 0 then .err .rPanic st
    else
      let pos1 := st.ppos.2 + flatOffset
      .ok () { st with ppos := (pos1 / cfg.lens.2, st.ppos.2 + pos1 % cfg.lens.2) }
  | .downRight _ _ =>
    if cfg.lens.1 = 0 then .err .rPanic st
    else
      let pos0 := st.ppos.1 + flatOffset
      .ok () { st with ppos := (pos0 % cfg.lens.1, st.ppos.2 + pos0 / cfg.lens.1) }

/-- Push a list of values in order through `pusherPush`. -/
def pusherPushAll (cfg : PusherCfg) : List Int → RSt → StRes PErr RSt Unit
  | [], st => .ok () st
  | v :: rest, st =>
    match pusherPush cfg v st with
    | .err e st' => .err e st'
    | .ok _ st' => pusherPushAll cfg rest st'

/-- Rust `Codebook::decode_vq` of `src/codebook.rs`: without a lookup table the
stream is undecodable and neither the reader nor the push target is
touched; otherwise decode one scalar offset and push the `dim_count`
looked-up values. -/
def Codebook.decodeVq (cb : Codebook) (cfg : PusherCfg) (st : RSt) : StRes PErr RSt Unit :=
  match cb.lookupTable with
  | none => .err (.e (.undecodable "Codebook has no lookup table")) st
  | some t =>
    match cb.decodeScalar st.rd with
    | .err e rd' => .err e { st with rd := rd' }
    | .ok off rd' =>
      match lookupVals t off with
      | .error _ => .err .rPanic { st with rd := rd' }
      | .ok vals => pusherPushAll cfg vals { st with rd := rd' }

/-- Rust `ResidueKind` of `src/residue.rs`. -/
inductive ResidueKind where
  | residue0
  | residue1
  | residue2
deriving DecidableEq, Repr

/-- Rust `Residue` of `src/residue.rs` (`end` is a Lean keyword and is renamed
`stop`; `part_len` is the partition size). -/
structure Residue where
  kind : ResidueKind
  start : Nat
  stop : Nat
  partLen : Nat
  classbook : Nat
  classCodebooks : List (List (Option Nat))
deriving DecidableEq, Repr

/-- The `for _ in 0..self.part_len / codebook.dim_count` loop of
`Residue::codebook_decode` of `src/residue.rs`. -/
def vqLoop (cb : Codebook) (cfg : PusherCfg) : Nat → RSt → StRes PErr RSt Unit
  | 0, st => .ok () st
  | n + 1, st =>
    match cb.decodeVq cfg st with
    | .err e st' => .err e st'
    | .ok _ st' => vqLoop cb cfg n st'

/-- Rust `Residue::codebook_decode` of `src/residue.rs`:
`assert!(self.part_len % codebook.dim_count == 0)` (a zero `dim_count`
is the Rust division-by-zero panic), then `part_len / dim_count` VQ
decodes. -/
def Residue.codebookDecode (res : Residue) (cfg : PusherCfg) (cb : Codebook) (st : RSt) :
    StRes PErr RSt Unit :=
  if cb.dimCount = 0 ∨ res.partLen % cb.dimCount ≠ 0 then .err .rPanic st
  else vqLoop cb cfg (res.partLen / cb.dimCount) st

/-- The `for r in &mut result[c][..len]` zeroing loop at the top of
`Residue::do_decode` of `src/residue.rs`. -/
def residueZeroLoop (len : Nat) : List Nat → RSt → StRes PErr RSt Unit
  | [], st => .ok () st
  | c :: rest, st =>
    match st.result.get? c with
    | none => .err .rPanic st
    | some row =>
      if len ≤ row.length then
        residueZeroLoop len rest
          { st with result := st.result.set c (List.replicate len (0 : Int) ++ row.drop len) }
      else
        .err .rPanic st

/-- The `for cw in (0..classwords_per_codeword).rev()` digit split of a
classword in `Residue::do_decode`: digits in base `nClasses`, most
significant first, written at `classes[i][cw + part_count]`.  A zero
`nClasses` is the Rust `% 0` panic. -/
def writeClassDigits (nClasses partCount : Nat) : Nat → Nat → List Nat → Except Unit (List Nat)
  | 0, _, row => .ok row
  | cwRem + 1, temp, row =>
    if nClasses = 0 then .error ()
    else
      let idx := cwRem + partCount
      if idx < row.length then
        writeClassDigits nClasses partCount cwRem (temp / nClasses) (row.set idx (temp % nClasses))
      else
        .error ()

/-- The pass-0 classword loop of `Residue::do_decode`
(`for (i, &c) in channels.iter().enumerate()` under `if pass == 0`): skip
zeroed channels (kinds 0/1), scalar-decode one classword from the
classbook, split it into digits; for kind 2 a single classword serves all
channels (`break`). -/
def residueClassLoop (isR2 : Bool) (nClasses cwpc partCount : Nat) (classbookCb : Codebook)
    (zeroChannels : List Bool) :
    List (Nat × Nat) → List (List Nat) → RSt → StRes PErr RSt (List (List Nat))
  | [], classes, st => .ok classes st
  | (i, c) :: rest, classes, st =>
    match zeroChannels.get? c with
    | none => .err .rPanic st
    | some zc =>
      if !isR2 && zc then
        residueClassLoop isR2 nClasses cwpc partCount classbookCb zeroChannels rest classes st
      else
        match classbookCb.decodeScalar st.rd with
        | .err e rd' => .err e { st with rd := rd' }
        | .ok temp rd' =>
          match classes.get? i with
          | none => .err .rPanic { st with rd := rd' }
          | some row =>
            match writeClassDigits nClasses partCount cwpc temp row with
            | .error _ => .err .rPanic { st with rd := rd' }
            | .ok row' =>
              let classes' := classes.set i row'
              if isR2 then .ok classes' { st with rd := rd' }
              else
                residueClassLoop isR2 nClasses cwpc partCount classbookCb zeroChannels
                  rest classes' { st with rd := rd' }

/-- The per-channel body of the partition loop of `Residue::do_decode`
(`for (i, &c) in channels.iter().enumerate()` inside
`for _ in 0..classwords_per_codeword`): look up the codebook assigned to
`(class, pass)`; when present, for kind 1 reposition the pusher to
`(c, start + part_count * part_len)` and VQ-decode one partition, for
kind 2 decode in place, for kind 0 `unimplemented!()`; when absent skip
`part_len` positions.  For kind 2 a single partition serves all channels
(`break`). -/
def residueChannelLoop (res : Residue) (isR2 : Bool) (pass partCount : Nat)
    (cfg : PusherCfg) (zeroChannels : List Bool) (codebooks : List Codebook)
    (classes : List (List Nat)) :
    List (Nat × Nat) → RSt → StRes PErr RSt Unit
  | [], st => .ok () st
  | (i, c) :: rest, st =>
    match zeroChannels.get? c with
    | none => .err .rPanic st
    | some zc =>
      if !isR2 && zc then
        residueChannelLoop res isR2 pass partCount cfg zeroChannels codebooks classes rest st
      else
        match classes.get? i with
        | none => .err .rPanic st
        | some row =>
          match row.get? partCount with
          | none => .err .rPanic st
          | some vqClass =>
            match res.classCodebooks.get? vqClass with
            | none => .err .rPanic st
            | some bookRow =>
              match bookRow.get? pass with
              | none => .err .rPanic st
              | some vqBookOpt =>
                let afterBody : StRes PErr RSt Unit :=
                  match vqBookOpt with
                  | some vqBook =>
                    match codebooks.get? vqBook with
                    | none => .err .rPanic st
                    | some cb =>
                      match res.kind with
                      | .residue0 => .err .rPanic st
                      | .residue1 =>
                        res.codebookDecode cfg cb
                          { st with ppos := (c, res.start + partCount * res.partLen) }
                      | .residue2 => res.codebookDecode cfg cb st
                  | none => advanceFlatPos cfg res.partLen st
                match afterBody with
                | .err e st' => .err e st'
                | .ok _ st' =>
                  if isR2 then .ok () st'
                  else
                    residueChannelLoop res isR2 pass partCount cfg zeroChannels codebooks
                      classes rest st'

/-- The `for _ in 0..classwords_per_codeword` partition loop of
`Residue::do_decode`, returning the partition counter; reaching
`parts_to_read` is the outer break. -/
def residueCwLoop (res : Residue) (isR2 : Bool) (pass : Nat) (cfg : PusherCfg)
    (zeroChannels : List Bool) (codebooks : List Codebook) (classes : List (List Nat))
    (channelsEnum : List (Nat × Nat)) (parts : Nat) :
    Nat → Nat → RSt → StRes PErr RSt Nat
  | 0, partCount, st => .ok partCount st
  | cwRem + 1, partCount, st =>
    match residueChannelLoop res isR2 pass partCount cfg zeroChannels codebooks classes
        channelsEnum st with
    | .err e st' => .err e st'
    | .ok _ st' =>
      let partCount' := partCount + 1
      if partCount' ≥ parts then .ok partCount' st'
      else
        residueCwLoop res isR2 pass cfg zeroChannels codebooks classes channelsEnum parts
          cwRem partCount' st'

/-- The outer while loop (`part_count < parts_to_read`) of
`Residue::do_decode`.  The fuel only runs out on inputs on which the Rust
loop would cycle without progress (then the Rust code either spins
forever or exhausts the reader); no evaluated instance reaches that. -/
def residueWhileLoop (res : Residue) (isR2 : Bool) (pass : Nat) (cfg : PusherCfg)
    (zeroChannels : List Bool) (codebooks : List Codebook)
    (channelsEnum : List (Nat × Nat)) (parts cwpc nClasses : Nat) (classbookCb : Codebook) :
    Nat → Nat → List (List Nat) → RSt → StRes PErr RSt (List (List Nat))
  | 0, _, _, st => .err .diverged st
  | fuel + 1, partCount, classes, st =>
    if partCount ≥ parts then .ok classes st
    else
      let classesStep : StRes PErr RSt (List (List Nat)) :=
        if pass = 0 then
          residueClassLoop isR2 nClasses cwpc partCount classbookCb zeroChannels
            channelsEnum classes st
        else
          .ok classes st
      match classesStep with
      | .err e st' => .err e st'
      | .ok classes' st' =>
        match residueCwLoop res isR2 pass cfg zeroChannels codebooks classes' channelsEnum
            parts cwpc partCount st' with
        | .err e st'' => .err e st''
        | .ok partCount' st'' =>
          residueWhileLoop res isR2 pass cfg zeroChannels codebooks channelsEnum parts cwpc
            nClasses classbookCb fuel partCount' classes' st''

/-- The `for pass in 0..8` loop of `Residue::do_decode`: per pass, select
the pusher start position and step from the residue kind
(`unimplemented!()` for kind 0), rebuild the pusher, and run the
partition loop. -/
def residuePassLoop (res : Residue) (isR2 : Bool) (channels : List Nat)
    (zeroChannels : List Bool) (codebooks : List Codebook)
    (channelsEnum : List (Nat × Nat)) (parts cwpc nClasses : Nat) (classbookCb : Codebook)
    (fuel : Nat) :
    Nat → List (List Nat) → RSt → StRes PErr RSt Unit
  | 0, _, st => .ok () st
  | pRem + 1, classes, st =>
    let pass := 8 - (pRem + 1)
    let posStep : StRes PErr RSt ((Nat × Nat) × PStep) :=
      match res.kind with
      | .residue0 => .err .rPanic st
      | .residue1 => .ok ((0, 0), .rightDown 0 1) st
      | .residue2 =>
        if channels.length = 0 then .err .rPanic st
        else .ok ((res.start % channels.length, res.start / channels.length), .downRight 1 1) st
    match posStep with
    | .err e st' => .err e st'
    | .ok (pusherPos, pusherStep) st' =>
      match st'.result.get? 0 with
      | none => .err .rPanic st'
      | some row0 =>
        let cfg : PusherCfg := ⟨channels, (channels.length, row0.length), pusherStep⟩
        match residueWhileLoop res isR2 pass cfg zeroChannels codebooks channelsEnum parts
            cwpc nClasses classbookCb fuel 0 classes { st' with ppos := pusherPos } with
        | .err e st'' => .err e st''
        | .ok classes' st'' =>
          residuePassLoop res isR2 channels zeroChannels codebooks channelsEnum parts cwpc
            nClasses classbookCb fuel pRem classes' st''

/-- Rust `Residue::do_decode` of `src/residue.rs`. -/
def Residue.doDecode (res : Residue) (rd : Brd) (result : List (List Int)) (len : Nat)
    (channels : List Nat) (zeroChannels : List Bool) (codebooks : List Codebook) :
    StRes PErr RSt Unit :=
  let st0 : RSt := ⟨rd, result, (0, 0)⟩
  if res.stop < res.start then .err .rPanic st0
  else
    let nToRead := res.stop - res.start
    match residueZeroLoop len channels st0 with
    | .err e st1 => .err e st1
    | .ok _ st1 =>
      if nToRead = 0 then .ok () st1
      else
        let allChannelsZero := zeroChannels.all (fun z => z)
        if allChannelsZero then .ok () st1
        else
          match codebooks.get? res.classbook with
          | none => .err .rPanic st1
          | some classbookCb =>
            let cwpc := classbookCb.dimCount
            if res.partLen = 0 then .err .rPanic st1
            else
              let parts := nToRead / res.partLen
              let isR2 : Bool := match res.kind with | .residue2 => true | _ => false
              let nClasses := res.classCodebooks.length
              if cwpc + parts = 0 then .err .rPanic st1
              else
                let classes0 := channels.map (fun _ => List.replicate (cwpc + parts - 1) 0)
                let channelsEnum := channels.enum
                let fuel := parts + 8 * (st1.rd.input.length * 8 + st1.rd.bitBufLeft + 64) + 8
                residuePassLoop res isR2 channels zeroChannels codebooks channelsEnum parts
                  cwpc nClasses classbookCb fuel 8 classes0 st1

/-- Rust `Residue::decode` of `src/residue.rs`: run `do_decode`, map the result
through `expect_eof`, and recover an `ExpectedEof` by succeeding with the
residue truncated at its current progress. -/
def Residue.decode (res : Residue) (rd : Brd) (result : List (List Int)) (len : Nat)
    (channels : List Nat) (zeroChannels : List Bool) (codebooks : List Codebook) :
    StRes PErr RSt Unit :=
  match res.doDecode rd result len channels zeroChannels codebooks with
  | .ok a st => .ok a st
  | .err .rPanic st => .err .rPanic st
  | .err .diverged st => .err .diverged st
  | .err (.e e) st =>
    let e' := expectEofErr e
    if e'.kind = .expectedEof then .ok () st else .err (.e e') st

/-- The cascade loop of `Residue::read` of `src/residue.rs`: per class a
3-bit low part, a presence flag and an optional 5-bit high part, combined
as `high << 3 | low`. -/
def residueCascadeLoop : Nat → Brd → List Nat → StRes Err Brd (List Nat)
  | 0, s, acc => .ok acc.reverse s
  | n + 1, s, acc =>
    match readU8Bits 3 s with
    | .err e s1 => .err (.io e) s1
    | .ok lowBits s1 =>
      match readBool s1 with
      | .err e s2 => .err (.io e) s2
      | .ok hasHighBits s2 =>
        let highRes : StRes IoEK Brd Nat :=
          if hasHighBits then readU8Bits 5 s2 else .ok 0 s2
        match highRes with
        | .err e s3 => .err (.io e) s3
        | .ok highBits s3 =>
          residueCascadeLoop n s3 ((highBits <<< 3 ||| lowBits) :: acc)

/-- The `for bit in 0..8` book-set loop of `Residue::read`: read an 8-bit
codebook index for each set cascade bit and range-check it. -/
def residueBookSetLoop (codebookCount cas : Nat) :
    List Nat → Brd → List (Option Nat) → StRes Err Brd (List (Option Nat))
  | [], s, acc => .ok acc.reverse s
  | bit :: rest, s, acc =>
    if isBitSet cas bit then
      match readU8 s with
      | .err e s1 => .err (.io e) s1
      | .ok codebookIdx s1 =>
        if codebookIdx ≥ codebookCount then
          .err (.undecodable "Invalid codebook index in residue") s1
        else
          residueBookSetLoop codebookCount cas rest s1 (some codebookIdx :: acc)
    else
      residueBookSetLoop codebookCount cas rest s (none :: acc)

/-- The `for c in &cascade` loop of `Residue::read`. -/
def residueClassBooksLoop (codebookCount : Nat) :
    List Nat → Brd → List (List (Option Nat)) → StRes Err Brd (List (List (Option Nat)))
  | [], s, acc => .ok acc.reverse s
  | cas :: rest, s, acc =>
    match residueBookSetLoop codebookCount cas [0, 1, 2, 3, 4, 5, 6, 7] s [] with
    | .err e s1 => .err e s1
    | .ok bookSet s1 => residueClassBooksLoop codebookCount rest s1 (bookSet :: acc)

/-- Rust `Residue::read` of `src/residue.rs`. -/
def Residue.read (s : Brd) (codebookCount : Nat) : StRes Err Brd Residue :=
  match readU16 s with
  | .err e s1 => .err (.io e) s1
  | .ok kindInt s1 =>
    let kindOpt : Option ResidueKind :=
      if kindInt = 0 then some .residue0
      else if kindInt = 1 then some .residue1
      else if kindInt = 2 then some .residue2
      else none
    match kindOpt with
    | none => .err (.undecodable "Unsupported residue type") s1
    | some kind =>
      match readU32Bits 24 s1 with
      | .err e s2 => .err (.io e) s2
      | .ok start s2 =>
        match readU32Bits 24 s2 with
        | .err e s3 => .err (.io e) s3
        | .ok stop s3 =>
          if stop < start then .err (.undecodable "Invalid residue range") s3
          else
            match readU32Bits 24 s3 with
            | .err e s4 => .err (.io e) s4
            | .ok partLenM1 s4 =>
              let partLen := partLenM1 + 1
              match readU8Bits 6 s4 with
              | .err e s5 => .err (.io e) s5
              | .ok classCountM1 s5 =>
                let classCount := classCountM1 + 1
                match readU8Bits 8 s5 with
                | .err e s6 => .err (.io e) s6
                | .ok classbook s6 =>
                  if classbook ≥ codebookCount then
                    .err (.undecodable "Invalid codebook index in residue classbook") s6
                  else
                    match residueCascadeLoop classCount s6 [] with
                    | .err e s7 => .err e s7
                    | .ok cascade s7 =>
                      match residueClassBooksLoop codebookCount cascade s7 [] with
                      | .err e s8 => .err e s8
                      | .ok classCodebooks s8 =>
                        .ok ⟨kind, start, stop, partLen, classbook, classCodebooks⟩ s8

/-- Well-formedness of a byte source: every element is a `u8` value. -/
def bytesWf (l : List Nat) : Prop := ∀ b ∈ l, b < 256

/-- Concrete one-bit huffman decoder (two single-bit codes, both decoding
to value 0) used by the concrete residue runs below. -/
def hufOneBit : HuffmanDecoder := ⟨[.code ⟨0, 1⟩, .code ⟨0, 1⟩], 1, [], 1⟩

/-- Concrete classbook (dimension 1, no lookup table). -/
def cbClasswords : Codebook := ⟨1, 0, hufOneBit, none⟩

/-- Concrete VQ codebook: dimension 1, `Lookup1` table with single
multiplicand 5. -/
def cbVq : Codebook := ⟨1, 1, hufOneBit, some ⟨.lookup1, 1, [5], false⟩⟩

/-- Concrete type-1 residue: range `[0, 1)`, partition size 1, classbook
0, one class whose pass-0 codebook is codebook 1. -/
def resType1 : Residue :=
  ⟨.residue1, 0, 1, 1, 0, [[some 1, none, none, none, none, none, none, none]]⟩

/-- The residue that `Residue.read` produces from fourteen zero bytes: a
type-0 residue with an empty range. -/
def resType0 : Residue :=
  ⟨.residue0, 0, 0, 1, 0, [[none, none, none, none, none, none, none, none]]⟩

/-- Validation against the Rust unit test `bitstream::tests::try_read_u32_bits`:
reading 5 bits of `[0b001_00110]` yields `(0b00110, 5)` and a subsequent
32-bit read delivers only the 3 remaining bits. -/
theorem tryRead_matches_rust_unit_test :
    (tryReadU32Bits 5 ⟨[0b00100110], 0, 0⟩).1 = (0b00110, 5) ∧
    (tryReadU32Bits 32 (tryReadU32Bits 5 ⟨[0b00100110], 0, 0⟩).2).1 = (0b001, 3) := by
  decide

/-- Validation against the Rust unit test `bitstream::tests::read_u32_bits_10_1`:
two 10-bit reads across a byte boundary. -/
theorem readU32Bits_matches_rust_unit_test :
    (match readU32Bits 10 ⟨[0b00100110, 0b01110011, 0b00001001, 0, 0], 0, 0⟩ with
      | .ok v s =>
        (match readU32Bits 10 s with
          | .ok v2 _ => some (v, v2)
          | .err _ _ => none)
      | .err _ _ => none) = some (0b1100100110, 0b1001011100) := by
  decide

/-- Helper for C1: the zeroing loop of `Residue::do_decode` either
succeeds or panics on an out-of-range index; it never produces a returned
`error::Error`. -/
theorem residueZeroLoop_err_is_panic (len : Nat) (cs : List Nat) :
    ∀ (st : RSt) (er : PErr) (st' : RSt),
      residueZeroLoop len cs st = .err er st' → er = .rPanic := by
  induction cs with
  | nil => intro st er st' h; simp [residueZeroLoop] at h
  | cons c rest ih =>
    intro st er st' h
    unfold residueZeroLoop at h
    split at h
    · injection h with h1 _; exact h1.symm
    · split at h
      · exact ih _ er st' h
      · injection h with h1 _; exact h1.symm

/-- Helper for C1: for a type-0 residue the pass loop hits
`unimplemented!()` at the head of its first iteration, before any read or
write. -/
theorem residuePassLoop_kind0_step (res : Residue) (isR2 : Bool) (channels : List Nat)
    (zeroChannels : List Bool) (codebooks : List Codebook)
    (channelsEnum : List (Nat × Nat)) (parts cwpc nClasses : Nat) (classbookCb : Codebook)
    (fuel pRem : Nat) (classes : List (List Nat)) (st : RSt)
    (hk : res.kind = .residue0) :
    residuePassLoop res isR2 channels zeroChannels codebooks channelsEnum parts cwpc
      nClasses classbookCb fuel (pRem + 1) classes st = .err .rPanic st := by
  unfold residuePassLoop
  rw [hk]

/-- C1 (counterexample): on a descriptor of fourteen zero bytes,
`Residue::read` returns `Ok` with a type-0 residue — it does not reject
residue type 0 — and `do_decode` on that residue (its range is empty)
returns `Ok` as well, so decoding proceeds past a type-0 descriptor with
no returned error. -/
theorem residue0_read_accepts_counterexample :
    Residue.read ⟨List.replicate 14 0, 0, 0⟩ 1 = .ok resType0 ⟨[], 0, 6⟩ ∧
    resType0.kind = .residue0 ∧
    resType0.doDecode ⟨[], 0, 0⟩ [[0]] 0 [0] [true] [] = .ok () ⟨⟨[], 0, 0⟩, [[0]], (0, 0)⟩ :=
  ⟨by rfl, rfl, by rfl⟩

/-- C1 (amended): `Residue::read` accepts residue type 0, and
`Residue::do_decode` on a type-0 residue never returns an error (and
never merely runs out of loop fuel): it can return `Ok` only when the
residue range is empty or every channel is zeroed, and in every other
case it panics at the `unimplemented!()` dispatch. -/
theorem residue0_decode_never_returns_error (res : Residue) (rd : Brd)
    (result : List (List Int)) (len : Nat) (channels : List Nat)
    (zeroChannels : List Bool) (codebooks : List Codebook)
    (hk : res.kind = .residue0) :
    (∀ e st', res.doDecode rd result len channels zeroChannels codebooks ≠ .err (.e e) st') ∧
    (∀ st', res.doDecode rd result len channels zeroChannels codebooks ≠ .err .diverged st') ∧
    (∀ a st', res.doDecode rd result len channels zeroChannels codebooks = .ok a st' →
      res.stop - res.start = 0 ∨ zeroChannels.all (fun z => z) = true) := by
  have key : ∀ (r : PErr) (st'' : RSt),
      res.doDecode rd result len channels zeroChannels codebooks = .err r st'' →
      r = .rPanic := by
    intro r st'' h
    unfold Residue.doDecode at h
    simp only [] at h
    split at h
    · injection h with h1 _; exact h1.symm
    · split at h
      · rename_i er st1 heq
        injection h with h1 _
        rw [← h1]
        exact residueZeroLoop_err_is_panic len channels _ er st1 heq
      · split at h
        · exact absurd h (by simp)
        · split at h
          · exact absurd h (by simp)
          · split at h
            · injection h with h1 _; exact h1.symm
            · split at h
              · injection h with h1 _; exact h1.symm
              · split at h
                · injection h with h1 _; exact h1.symm
                · rw [show (8 : Nat) = 7 + 1 from rfl] at h
                  rw [residuePassLoop_kind0_step _ _ _ _ _ _ _ _ _ _ _ _ _ _ hk] at h
                  injection h with h1 _; exact h1.symm
  refine ⟨fun e st' h => ?_, fun st' h => ?_, fun a st' h => ?_⟩
  · have := key _ _ h; simp at this
  · have := key _ _ h; simp at this
  · unfold Residue.doDecode at h
    simp only [] at h
    split at h
    · exact absurd h (by simp)
    · split at h
      · exact absurd h (by simp)
      · split at h
        · rename_i hn
          exact Or.inl hn
        · split at h
          · rename_i hz
            exact Or.inr hz
          · split at h
            · exact absurd h (by simp)
            · split at h
              · exact absurd h (by simp)
              · split at h
                · exact absurd h (by simp)
                · rw [show (8 : Nat) = 7 + 1 from rfl] at h
                  rw [residuePassLoop_kind0_step _ _ _ _ _ _ _ _ _ _ _ _ _ _ hk] at h
                  exact absurd h (by simp)

/-- Witness for C1: the amended theorem applied at a concrete type-0
residue. -/
theorem residue0_decode_never_returns_error_witness :
    resType0.doDecode ⟨[], 0, 0⟩ [[0]] 0 [0] [true] [] ≠
      .err (.e (.undecodable "Unsupported residue type")) ⟨⟨[], 0, 0⟩, [[0]], (0, 0)⟩ :=
  (residue0_decode_never_returns_error resType0 ⟨[], 0, 0⟩ [[0]] 0 [0] [true] [] rfl).1 _ _

/-- C2: whenever `Floor::do_begin_decode` fails with an `UnexpectedEof`
I/O error — the bit stream underflowed at some point while reading the
per-channel floor data — `Floor::begin_decode` returns `Ok` with the
result Y-list truncated to length 0; the EOF is never surfaced to the
caller. -/
theorem floor_beginDecode_recovers_eof (f : Floor) (cbs : List Codebook) (s s' : Brd)
    (h : f.doBeginDecode cbs s = .err (.e (.io .unexpectedEof)) s') :
    f.beginDecode cbs s = .ok [] s' := by
  unfold Floor.beginDecode
  rw [h]
  rfl

/-- Witness for C2: a floor decode on an empty bit stream underflows on
the first bit and is recovered to an empty Y-list. -/
theorem floor_beginDecode_recovers_eof_witness :
    Floor.beginDecode ⟨1, 256, [], [], [], [], []⟩ [] ⟨[], 0, 0⟩ = .ok [] ⟨[], 0, 0⟩ :=
  floor_beginDecode_recovers_eof ⟨1, 256, [], [], [], [], []⟩ [] ⟨[], 0, 0⟩ ⟨[], 0, 0⟩ rfl

/-- C3 (bug evaluation): for residue type 1 over the submap channel list
`[0, 2, 3]` (a valid multi-submap configuration), the value VQ-decoded
for the channel listed as 2 is added into `result[3]`, not `result[2]`:
`set_pos((c, ..))` passes the channel number where `Pusher2d` expects a
position into the channel list, so the write goes to
`result[channels[c]]`.  Here channel 2 decodes the value 5, yet the final
state has `result[2] = [0]` and `result[3] = [5]`. -/
theorem residue1_value_for_channel2_lands_in_channel3 :
    resType1.doDecode ⟨[0], 0, 0⟩ [[9], [9], [9], [9]] 1 [0, 2, 3] [false, true, false, true]
        [cbClasswords, cbVq] =
      .ok () ⟨⟨[], 0, 4⟩, [[5], [9], [0], [5]], (1, 0)⟩ := by
  rfl

/-- C4: one step of floor-1 amplitude decoding at position `i` with
precomputed neighbors `(lowN, highN)`.  With `pred` interpolated by
`render_point`, `high_room = range - pred`, `low_room = pred` and
`room = 2 * min high_room low_room`: a zero coded value marks the entry
unused and stores the prediction; otherwise the two neighbors and the
entry are marked used and the final Y is `pred + y - low_room` when
`y ≥ room` and `high_room > low_room`, `pred - y + high_room - 1` when
`y ≥ room` otherwise, `pred + y / 2` for even `y < room` and
`pred - (y + 1) / 2` for odd `y < room` (stored through the `u16`
cast). -/
theorem floor1_amplitude_step_formula (f : Floor) (ys : List (Nat × Bool))
    (i lowN highN : Nat) (_hi : 2 ≤ i)
    (hnb : f.neighbors.get? (i - 2) = some (lowN, highN)) :
    ampStep f ys i =
      (let pred := renderPoint (f.xList.getD lowN 0) (((ys.getD lowN (0, false)).1 : Int))
        (f.xList.getD highN 0) (((ys.getD highN (0, false)).1 : Int)) (f.xList.getD i 0)
      let highRoom := (f.range : Int) - pred
      let lowRoom := pred
      let room := 2 * min highRoom lowRoom
      let y : Int := ((ys.getD i (0, false)).1 : Int)
      if y = 0 then ys.set i (toU16 pred, false)
      else
        (setUsed (setUsed ys lowN) highN).set i
          (toU16 (if y ≥ room then
              (if highRoom > lowRoom then pred + y - lowRoom else pred - y + highRoom - 1)
            else (if y % 2 = 0 then pred + y / 2 else pred - (y + 1) / 2)), true)) := by
  have hnb2 : f.neighbors[i - 2]? = some (lowN, highN) := by
    rw [← List.get?_eq_getElem?]; exact hnb
  have hg : f.neighbors.getD (i - 2) (0, 0) = (lowN, highN) := by
    simp [List.getD, hnb2]
  unfold ampStep
  rw [hg]
  simp only []
  have hy : (0 : Int) ≤ ((ys.getD i (0, false)).1 : Int) := Int.natCast_nonneg _
  have hmod : Int.tmod ((ys.getD i (0, false)).1 : Int) 2 =
      ((ys.getD i (0, false)).1 : Int) % 2 :=
    Int.tmod_eq_emod hy (by norm_num)
  have hdiv : Int.tdiv ((ys.getD i (0, false)).1 : Int) 2 =
      ((ys.getD i (0, false)).1 : Int) / 2 :=
    Int.tdiv_eq_ediv hy (by norm_num)
  have hdiv1 : Int.tdiv (((ys.getD i (0, false)).1 : Int) + 1) 2 =
      (((ys.getD i (0, false)).1 : Int) + 1) / 2 :=
    Int.tdiv_eq_ediv (by omega) (by norm_num)
  have hroom : ∀ a b : Int, (if a < b then a * 2 else b * 2) = 2 * min a b := by
    intro a b
    split <;> omega
  rw [hmod, hdiv, hdiv1, hroom, ite_not]

/-- Witness for C4: the step theorem applied at a concrete floor
(`range = 8`, X-list `[0, 4, 2]`, neighbors of position 2 are positions
0 and 1) with Y-list `[(2, used), (4, used), (3, used)]`: the prediction
at `x = 2` is 3, the room is 6, and the odd coded value 3 below the room
gives `3 - 2 = 1`. -/
theorem floor1_amplitude_step_formula_witness :
    ampStep ⟨1, 8, [], [], [0, 4, 2], [], [(0, 1)]⟩ [(2, true), (4, true), (3, true)] 2 =
      [(2, true), (4, true), (1, true)] :=
  (floor1_amplitude_step_formula ⟨1, 8, [], [], [0, 4, 2], [], [(0, 1)]⟩
    [(2, true), (4, true), (3, true)] 2 0 1 (by norm_num) rfl).trans (by decide)

/-- Helper for C5: for `1 ≤ len ≤ 32` the Rust mask
`0xFFFF_FFFF >> (32 - len)` equals `2 ^ len - 1`. -/
theorem lsbMask_eq (len : Nat) (h1 : 1 ≤ len) (h2 : len ≤ 32) :
    lsbMask len = 2 ^ len - 1 := by
  rw [lsbMask, Nat.shiftRight_eq_div_pow]
  have hpos : 0 < (2 : Nat) ^ (32 - len) := Nat.pos_pow_of_pos _ (by norm_num)
  have e1 : (2 ^ len - 1) * 2 ^ (32 - len) = 2 ^ 32 - 2 ^ (32 - len) := by
    rw [Nat.sub_mul, one_mul, ← pow_add]
    congr 2
    omega
  have hle : (2 : Nat) ^ (32 - len) ≤ 2 ^ 32 := Nat.pow_le_pow_right (by norm_num) (by omega)
  have hnum : (0xFFFFFFFF : Nat) = 2 ^ (32 - len) - 1 + (2 ^ len - 1) * 2 ^ (32 - len) := by
    rw [e1]
    have : (2 : Nat) ^ 32 = 4294967296 := by norm_num
    omega
  rw [hnum, Nat.add_mul_div_right _ _ hpos, Nat.div_eq_of_lt (by omega), Nat.zero_add]

/-- Helper for C5: `ls_bits` applied to a `u32`-cast value is reduction
modulo `2 ^ len`. -/
theorem lsBits32_mod32 (x len : Nat) (h : len ≤ 32) :
    lsBits32 (x % 2 ^ 32) len = x % 2 ^ len := by
  unfold lsBits32
  rcases Nat.eq_or_lt_of_le h with h32 | hlt
  · subst h32
    simp
  · rcases Nat.eq_zero_or_pos len with h0 | hpos
    · subst h0
      simp [Nat.mod_one]
    · rw [if_neg (by omega), if_neg (by omega), if_pos (by omega),
        lsbMask_eq len hpos (by omega), Nat.and_pow_two_sub_one_eq_mod,
        Nat.mod_mod_of_dvd]
      exact pow_dvd_pow 2 (by omega)

/-- Helper for C5: `ls_bits` is the identity on values that already fit. -/
theorem lsBits32_eq_self (v n : Nat) (hn : n ≤ 32) (hv : v < 2 ^ n) :
    lsBits32 v n = v := by
  have hx : v % 2 ^ 32 = v :=
    Nat.mod_eq_of_lt (lt_of_lt_of_le hv (Nat.pow_le_pow_right (by norm_num) hn))
  calc lsBits32 v n = lsBits32 (v % 2 ^ 32) n := by rw [hx]
    _ = v % 2 ^ n := lsBits32_mod32 v n hn
    _ = v := Nat.mod_eq_of_lt hv

/-- Helper for C5: the low `n` bits of `(b <<< n) ||| v` are `v`. -/
theorem orShiftLow (b v n : Nat) (hv : v < 2 ^ n) : ((b <<< n) ||| v) % 2 ^ n = v := by
  apply Nat.eq_of_testBit_eq
  intro i
  rw [Nat.testBit_mod_two_pow, Nat.testBit_lor, Nat.testBit_shiftLeft]
  rcases Nat.lt_or_ge i n with h | h
  · simp [h, Nat.not_le.mpr h]
  · have hvb : v.testBit i = false :=
      Nat.testBit_lt_two_pow (lt_of_lt_of_le hv (Nat.pow_le_pow_right (by norm_num) h))
    simp [Nat.not_lt.mpr h, hvb]

/-- Helper for C5: shifting `(b <<< n) ||| v` back right by `n` recovers
`b`. -/
theorem orShiftHigh (b v n : Nat) (hv : v < 2 ^ n) : ((b <<< n) ||| v) >>> n = b := by
  apply Nat.eq_of_testBit_eq
  intro i
  rw [Nat.testBit_shiftRight, Nat.testBit_lor, Nat.testBit_shiftLeft]
  have hvb : v.testBit (n + i) = false :=
    Nat.testBit_lt_two_pow
      (lt_of_lt_of_le hv (Nat.pow_le_pow_right (by norm_num) (Nat.le_add_right n i)))
  simp [hvb, Nat.le_add_right, Nat.add_sub_cancel_left]

/-- Helper for C5: the little-endian assembly of a well-formed byte list
is bounded by `2 ^ (8 * length)`. -/
theorem bytesToBitBuf_lt (l : List Nat) (h : bytesWf l) :
    bytesToBitBuf l < 2 ^ (8 * l.length) := by
  induction l with
  | nil => simp [bytesToBitBuf]
  | cons b rest ih =>
    have hb : b < 2 ^ 8 := h b (by simp)
    have hr : bytesToBitBuf rest < 2 ^ (8 * rest.length) :=
      ih (fun x hx => h x (by simp [hx]))
    have key := Nat.append_lt hb hr
    rw [Nat.lor_comm] at key
    calc bytesToBitBuf (b :: rest) = b ||| (bytesToBitBuf rest <<< 8) := rfl
      _ < 2 ^ (8 + 8 * rest.length) := key
      _ = 2 ^ (8 * (b :: rest).length) := by
        congr 1
        simp [List.length_cons]
        ring

/-- Helper for C5: a right shift shrinks a `2 ^ a` bound to
`2 ^ (a - k)`. -/
theorem shiftRight_lt_pow (x a k : Nat) (hx : x < 2 ^ a) : x >>> k < 2 ^ (a - k) := by
  rw [Nat.shiftRight_eq_div_pow]
  rcases le_or_lt k a with h | h
  · rw [Nat.div_lt_iff_lt_mul (Nat.pos_pow_of_pos _ (by norm_num : 0 < 2)), ← pow_add]
    have hak : a - k + k = a := by omega
    rw [hak]
    exact hx
  · have h0 : x / 2 ^ k = 0 := Nat.div_eq_of_lt
      (lt_of_lt_of_le hx (Nat.pow_le_pow_right (by norm_num) (by omega)))
    rw [h0]
    exact Nat.pos_pow_of_pos _ (by norm_num)

/-- Helper for C5: after `fill_bit_buf` on a state whose accumulator is
either empty or whose source is nonempty, the accumulator fits in the
buffered bit count, the count is at most 32, and the source stays
well-formed. -/
theorem fill_inv (s : Brd) (hwf : bytesWf s.input) (hz : s.bitBuf = 0 ∨ s.input ≠ []) :
    (fillBitBuf s).bitBuf < 2 ^ (fillBitBuf s).bitBufLeft ∧
    (fillBitBuf s).bitBufLeft ≤ 32 ∧ bytesWf (fillBitBuf s).input := by
  obtain ⟨inp, buf, left⟩ := s
  unfold fillBitBuf
  dsimp only []
  rcases Nat.eq_zero_or_pos (min 4 inp.length) with h0 | hpos
  · rw [if_pos h0]
    have hinp : inp = [] := by
      rcases inp with _ | ⟨a, rest⟩
      · rfl
      · simp [Nat.min_def] at h0
        split at h0 <;> omega
    have hb0 : buf = 0 := by
      rcases hz with h | h
      · exact h
      · exact absurd hinp h
    subst hb0
    exact ⟨by norm_num, by norm_num, hwf⟩
  · rw [if_neg (by omega)]
    have hlen : (inp.take (min 4 inp.length)).length = min 4 inp.length := by
      simp [List.length_take, Nat.min_assoc, Nat.min_self, Nat.min_comm]
    have hbb := bytesToBitBuf_lt (inp.take (min 4 inp.length))
      (fun x hx => hwf x (List.mem_of_mem_take hx))
    rw [hlen] at hbb
    refine ⟨?_, ?_, ?_⟩
    · show bytesToBitBuf (inp.take (min 4 inp.length)) < 2 ^ (min 4 inp.length * 8)
      rw [Nat.mul_comm]
      exact hbb
    · show min 4 inp.length * 8 ≤ 32
      omega
    · intro x hx
      exact hwf x (List.mem_of_mem_drop hx)

/-- Helper for C5: `fill_bit_buf` is idempotent when it could not deliver
any bits (empty source). -/
theorem fill_left_zero_eq (s : Brd) (h : (fillBitBuf s).bitBufLeft = 0) :
    fillBitBuf (fillBitBuf s) = fillBitBuf s := by
  obtain ⟨inp, buf, left⟩ := s
  unfold fillBitBuf at h ⊢
  dsimp only [] at h ⊢
  rcases Nat.eq_zero_or_pos (min 4 inp.length) with h0 | hpos
  · rw [if_pos h0] at h ⊢
    dsimp only []
    rw [if_pos h0]
  · rw [if_neg (by omega)] at h
    dsimp only [] at h
    omega

/-- Helper for C5: when the accumulator is empty, a strict read behaves
as if the refill had already happened. -/
theorem tryRead_fill_skip (n : Nat) (s : Brd) (hne : n ≠ 0) (h0 : s.bitBufLeft = 0) :
    tryReadU32Bits n s = tryReadU32Bits n (fillBitBuf s) := by
  by_cases h1 : (fillBitBuf s).bitBufLeft = 0
  · unfold tryReadU32Bits
    rw [if_neg hne, if_neg hne, if_pos h0, if_pos h1, fill_left_zero_eq s h1]
  · unfold tryReadU32Bits
    rw [if_neg hne, if_neg hne, if_pos h0, if_neg h1]

/-- Helper for C5: reading back `n` just-unread bits returns the same
value and restores the post-read state exactly. -/
theorem unread_then_read (n v : Nat) (s' : Brd) (hn1 : 1 ≤ n) (hn2 : n ≤ 32)
    (hv : v < 2 ^ n) (hbuf : s'.bitBuf < 2 ^ (64 - n)) (hleft : s'.bitBufLeft + n ≤ 64)
    (hz : s'.bitBufLeft = 0 → s'.bitBuf = 0) :
    tryReadU32Bits n (unreadU32Bits v n s') = ((v, n), s') := by
  obtain ⟨inp, buf, left⟩ := s'
  dsimp only [] at hbuf hleft hz
  have hne : n ≠ 0 := by omega
  have hvs : lsBits32 v n = v := lsBits32_eq_self v n hn2 hv
  have hsh64 : buf <<< n < 2 ^ 64 := by
    have h1 := Nat.shiftLeft_lt hbuf (m := n)
    have h2 : 64 - n + n = 64 := by omega
    rwa [h2] at h1
  have hmod : (buf <<< n) % 2 ^ 64 = buf <<< n := Nat.mod_eq_of_lt hsh64
  have hu : unreadU32Bits v n ⟨inp, buf, left⟩ = ⟨inp, (buf <<< n) ||| v, left + n⟩ := by
    unfold unreadU32Bits
    rw [if_neg hne, hvs, hmod]
  rw [hu]
  have hlowbits : lsBits32 (((buf <<< n) ||| v) % 2 ^ 32) n = v := by
    rw [lsBits32_mod32 _ n hn2, orShiftLow buf v n hv]
  have hhigh : ((buf <<< n) ||| v) >>> n = buf := orShiftHigh buf v n hv
  unfold tryReadU32Bits
  rw [if_neg hne]
  simp only []
  rw [if_neg (show ¬(⟨inp, (buf <<< n) ||| v, left + n⟩ : Brd).bitBufLeft = 0 by
    dsimp only []; omega)]
  unfold readBitBuf
  simp only []
  rw [if_neg (show ¬(n = 0 ∨ (⟨inp, (buf <<< n) ||| v, left + n⟩ : Brd).bitBufLeft = 0) by
    dsimp only []; omega)]
  simp only []
  rw [show min (⟨inp, (buf <<< n) ||| v, left + n⟩ : Brd).bitBufLeft n = n by
    dsimp only []; omega]
  simp only [if_true]
  rw [hlowbits]
  rw [if_neg (fun hcon => absurd hcon.2.1 (lt_irrefl n))]
  by_cases hl0 : left = 0
  · subst hl0
    have hb0 : buf = 0 := hz rfl
    subst hb0
    rw [if_pos (by omega : n = 0 + n)]
  · rw [if_neg (show ¬n = left + n by omega)]
    rw [hhigh, Nat.add_sub_cancel]


/-- Helper for C5: a strict `n`-bit read that needs no initial refill and
delivers exactly `n` bits leaves a state whose accumulator fits in
`64 - n` bits, whose buffered count keeps the push-back invariant
`left + n ≤ 64`, and which is fully zeroed when empty; the value fits in
`n` bits. -/
theorem tryRead_post_nofill (n : Nat) (s1 : Brd) (v : Nat) (s' : Brd)
    (hn1 : 1 ≤ n) (hn2 : n ≤ 32) (hL : ¬s1.bitBufLeft = 0) (hleft : s1.bitBufLeft ≤ 64)
    (hbuf : s1.bitBuf < 2 ^ 64) (hwf : bytesWf s1.input)
    (h : tryReadU32Bits n s1 = ((v, n), s')) :
    v < 2 ^ n ∧ s'.bitBuf < 2 ^ (64 - n) ∧ s'.bitBufLeft + n ≤ 64 ∧
    (s'.bitBufLeft = 0 → s'.bitBuf = 0) := by
  obtain ⟨inp, buf, left⟩ := s1
  dsimp only [] at hL hleft hbuf hwf
  have hne : n ≠ 0 := by omega
  unfold tryReadU32Bits at h
  rw [if_neg hne] at h
  simp only [] at h
  rw [if_neg hL] at h
  unfold readBitBuf at h
  simp only [] at h
  rw [if_neg (show ¬(n = 0 ∨ left = 0) by omega)] at h
  by_cases hc : n ≤ left
  · -- single-buffer read of n bits
    rw [Nat.min_eq_right hc, lsBits32_mod32 buf n hn2] at h
    simp only [] at h
    rw [if_neg (fun hcon => absurd hcon.2.1 (lt_irrefl n))] at h
    by_cases he : n = left
    · rw [if_pos he] at h
      injection h with h1 h2
      injection h1 with h3 h4
      subst h3
      subst h2
      refine ⟨Nat.mod_lt _ (Nat.pos_pow_of_pos _ (by norm_num)), ?_, ?_, ?_⟩
      · exact Nat.pos_pow_of_pos _ (by norm_num)
      · show 0 + n ≤ 64
        omega
      · intro _
        rfl
    · rw [if_neg he] at h
      injection h with h1 h2
      injection h1 with h3 h4
      subst h3
      subst h2
      refine ⟨Nat.mod_lt _ (Nat.pos_pow_of_pos _ (by norm_num)), ?_, ?_, ?_⟩
      · show buf >>> n < 2 ^ (64 - n)
        exact shiftRight_lt_pow buf 64 n hbuf
      · show left - n + n ≤ 64
        omega
      · intro hz0
        have hz1 : left - n = 0 := hz0
        exact absurd (by omega : n = left) he
  · -- two-part read: first the remaining `left` bits, then a refill
    have hlt : left < n := by omega
    rw [Nat.min_eq_left (by omega), lsBits32_mod32 buf left (by omega)] at h
    simp only [if_true] at h
    rw [if_pos ⟨hL, hlt, trivial⟩] at h
    set s3 := fillBitBuf ⟨inp, 0, 0⟩ with hs3
    obtain ⟨hf1, hf2, hf3⟩ := fill_inv ⟨inp, 0, 0⟩ hwf (Or.inl rfl)
    rw [← hs3] at hf1 hf2 hf3
    by_cases hfz : s3.bitBufLeft = 0
    · rw [if_pos (Or.inr hfz)] at h
      simp only [] at h
      injection h with h1 h2
      injection h1 with h3 h4
      omega
    · rw [if_neg (not_or.mpr ⟨by omega, hfz⟩)] at h
      simp only [] at h
      rw [if_neg hL] at h
      by_cases hc2 : n - left ≤ s3.bitBufLeft
      · rw [Nat.min_eq_right hc2] at h
        rw [lsBits32_mod32 s3.bitBuf (n - left) (by omega)] at h
        rw [lsBits32_eq_self (buf % 2 ^ left) left (by omega)
          (Nat.mod_lt _ (Nat.pos_pow_of_pos _ (by norm_num)))] at h
        injection h with h1 h2
        injection h1 with h3 h4
        have hvlt : v < 2 ^ n := by
          rw [← h3]
          have key := Nat.append_lt
            (Nat.mod_lt buf (Nat.pos_pow_of_pos left (by norm_num : 0 < 2)))
            (Nat.mod_lt s3.bitBuf (Nat.pos_pow_of_pos (n - left) (by norm_num : 0 < 2)))
          rw [Nat.lor_comm] at key
          have hexp : left + (n - left) = n := by omega
          rwa [hexp] at key
        refine ⟨hvlt, ?_, ?_, ?_⟩ <;> rw [← h2]
        · by_cases he2 : n - left = s3.bitBufLeft
          · rw [if_pos he2]
            exact Nat.pos_pow_of_pos _ (by norm_num)
          · rw [if_neg he2]
            show s3.bitBuf >>> (n - left) < 2 ^ (64 - n)
            have hsr := shiftRight_lt_pow s3.bitBuf s3.bitBufLeft (n - left) hf1
            exact lt_of_lt_of_le hsr (Nat.pow_le_pow_right (by norm_num) (by omega))
        · by_cases he2 : n - left = s3.bitBufLeft
          · rw [if_pos he2]
            show 0 + n ≤ 64
            omega
          · rw [if_neg he2]
            show s3.bitBufLeft - (n - left) + n ≤ 64
            omega
        · by_cases he2 : n - left = s3.bitBufLeft
          · rw [if_pos he2]
            intro _
            rfl
          · rw [if_neg he2]
            intro h0
            have h0' : s3.bitBufLeft - (n - left) = 0 := h0
            omega
      · rw [Nat.min_eq_left (by omega)] at h
        injection h with h1 h2
        injection h1 with h3 h4
        omega

/-- Helper for C5: the post-read state invariants for any successful
exact `n`-bit read from a well-formed reader state. -/
theorem read_exact_post (n : Nat) (s0 : Brd) (v : Nat) (s' : Brd)
    (hn1 : 1 ≤ n) (hn2 : n ≤ 32) (hleft : s0.bitBufLeft ≤ 64) (hbuf : s0.bitBuf < 2 ^ 64)
    (hwf : bytesWf s0.input) (h : tryReadU32Bits n s0 = ((v, n), s')) :
    v < 2 ^ n ∧ s'.bitBuf < 2 ^ (64 - n) ∧ s'.bitBufLeft + n ≤ 64 ∧
    (s'.bitBufLeft = 0 → s'.bitBuf = 0) := by
  have hne : n ≠ 0 := by omega
  by_cases hL : s0.bitBufLeft = 0
  · rw [tryRead_fill_skip n s0 hne hL] at h
    by_cases hL1 : (fillBitBuf s0).bitBufLeft = 0
    · exfalso
      unfold tryReadU32Bits at h
      rw [if_neg hne, if_pos hL1, fill_left_zero_eq s0 hL1] at h
      unfold readBitBuf at h
      simp only [] at h
      rw [if_pos (Or.inr hL1)] at h
      simp only [] at h
      rw [if_neg (fun hcon => absurd rfl hcon.1)] at h
      injection h with h1 h2
      injection h1 with h3 h4
      omega
    · have hinp : s0.input ≠ [] := by
        intro hemp
        apply hL1
        obtain ⟨inp, buf, left⟩ := s0
        simp only [] at hemp
        subst hemp
        rfl
      obtain ⟨hf1, hf2, hf3⟩ := fill_inv s0 hwf (Or.inr hinp)
      exact tryRead_post_nofill n (fillBitBuf s0) v s' hn1 hn2 hL1 (by omega)
        (lt_of_lt_of_le hf1 (Nat.pow_le_pow_right (by norm_num) (by omega))) hf3 h
  · exact tryRead_post_nofill n s0 v s' hn1 hn2 hL hleft hbuf hwf h

/-- C5: push-back identity of the bit reader.  For every well-formed
reader state (`u8` bytes, a `u64` accumulator, buffered bits within the
64-bit invariant) and every `n` with `1 ≤ n ≤ 32`: if an `n`-bit read
succeeds delivering exactly `n` bits and the value `v`, then
`unread_u32_bits(v, n)` followed by another `n`-bit read returns the same
value `v` and leaves the reader in the same state as after the first
read. -/
theorem bitReader_pushback_identity (n v : Nat) (s0 s' : Brd)
    (hn1 : 1 ≤ n) (hn2 : n ≤ 32) (hleft : s0.bitBufLeft ≤ 64) (hbuf : s0.bitBuf < 2 ^ 64)
    (hwf : bytesWf s0.input) (h : tryReadU32Bits n s0 = ((v, n), s')) :
    tryReadU32Bits n (unreadU32Bits v n s') = ((v, n), s') := by
  obtain ⟨hv, hb, hl, hz⟩ := read_exact_post n s0 v s' hn1 hn2 hleft hbuf hwf h
  exact unread_then_read n v s' hn1 hn2 hv hb hl hz

/-- Witness for C5: the identity applied to a 5-bit read from the single
byte `0x35`. -/
theorem bitReader_pushback_identity_witness :
    tryReadU32Bits 5 (unreadU32Bits 21 5 ⟨[], 1, 3⟩) = ((21, 5), ⟨[], 1, 3⟩) :=
  bitReader_pushback_identity 5 21 ⟨[0x35], 0, 0⟩ ⟨[], 1, 3⟩ (by norm_num) (by norm_num)
    (by norm_num) (by norm_num) (by unfold bytesWf; decide) (by decide)

/-- C8: for frame lengths 512 and 2048, the four windows built by
Windows.new have the left and right ranges, slope lengths and overlap
targets stated in the spec windows table: short to short has left range
256 to 512 and right range 0 to 256 targeting the previous frame, long to
long has left 1024 to 2048 and right 0 to 1024 targeting previous, long to
short has left 1024 to 1664 and right 0 to 256 targeting previous, and
short to long has left 256 to 512 and right 384 to 1024 targeting the
current frame; the slope lengths over the four windows are 256, 1024, 256
and 256. -/
theorem windows_geometry_512_2048 :
    (Windows.new ⟨512, 2048⟩).get .short .short =
      ⟨⟨256, 512⟩, 256, ⟨0, 256⟩, 256, 256, .left⟩ ∧
    (Windows.new ⟨512, 2048⟩).get .long .long =
      ⟨⟨1024, 2048⟩, 1024, ⟨0, 1024⟩, 1024, 1024, .left⟩ ∧
    (Windows.new ⟨512, 2048⟩).get .long .short =
      ⟨⟨1024, 1664⟩, 1408, ⟨0, 256⟩, 256, 256, .left⟩ ∧
    (Windows.new ⟨512, 2048⟩).get .short .long =
      ⟨⟨256, 512⟩, 256, ⟨384, 1024⟩, 640, 256, .right⟩ := by
  decide


/-- C10: for every bit reader state and every codebook whose descriptor
specified lookup kind 0 (so the lookup table is absent),
Codebook.decodeVq returns the Undecodable error with the message about a
missing lookup table, and the returned state equals the input state: no
bits are read and no output values are pushed. -/
theorem decodeVq_without_lookup_table (cb : Codebook) (cfg : PusherCfg) (st : RSt)
    (h : cb.lookupTable = none) :
    cb.decodeVq cfg st = .err (.e (.undecodable "Codebook has no lookup table")) st := by
  unfold Codebook.decodeVq
  rw [h]

theorem decodeVq_without_lookup_table_witness :
    cbClasswords.decodeVq ⟨[0], (1, 1), .rightDown 0 1⟩ ⟨⟨[7], 0, 0⟩, [[0]], (0, 0)⟩ =
      .err (.e (.undecodable "Codebook has no lookup table")) ⟨⟨[7], 0, 0⟩, [[0]], (0, 0)⟩ :=
  decodeVq_without_lookup_table cbClasswords ⟨[0], (1, 1), .rightDown 0 1⟩
    ⟨⟨[7], 0, 0⟩, [[0]], (0, 0)⟩ rfl


/-- C6: for a decoder whose previous and current frame kinds are both
absent, the samples view after a successful decode is empty, a failed
decode leaves such a decoder unchanged, and both a freshly built decoder
and any decoder immediately after reset have both frame kinds absent, so
the first decode after construction or reset yields an empty samples
view. -/
theorem first_decode_samples_empty (d : DecoderFr) (k : FrameKind)
    (hp : d.prevFrameKind = none) (hc : d.frameKind = none) :
    (d.decodeSuccess k).samplesLen = 0 ∧
    d.decodeFailed = d ∧
    (∀ fl : FrameLens, (DecoderFr.fresh fl).prevFrameKind = none ∧
      (DecoderFr.fresh fl).frameKind = none) ∧
    (∀ d2 : DecoderFr, d2.reset.prevFrameKind = none ∧ d2.reset.frameKind = none) := by
  refine ⟨?_, ?_, fun fl => ⟨rfl, rfl⟩, fun d2 => ⟨rfl, rfl⟩⟩
  · simp [DecoderFr.decodeSuccess, DecoderFr.swapFrames, DecoderFr.samplesLen,
      DecoderFr.window, hp, hc]
  · simp [DecoderFr.decodeFailed, DecoderFr.swapFrames, hc]

theorem first_decode_samples_empty_witness :
    ((DecoderFr.fresh ⟨512, 2048⟩).decodeSuccess .long).samplesLen = 0 :=
  (first_decode_samples_empty (DecoderFr.fresh ⟨512, 2048⟩) .long rfl rfl).1


/-- C7: Header.read succeeds only when the two decoded frame lengths
satisfy 64 <= short <= long <= 8192 and each is one shifted left by a
four-bit field, hence a power of two; and when the decoded short length
falls outside 64 to 8192, or the long length does, or the long length is
less than the short length, the frame-length tail of the header read
fails with the corresponding Undecodable error. -/
theorem header_frame_len_validation :
    (∀ s h s', Header.read s = .ok h s' →
      64 ≤ h.frameLens.short ∧ h.frameLens.short ≤ h.frameLens.long ∧
      h.frameLens.long ≤ 8192 ∧ (∃ a, h.frameLens.short = 2 ^ a) ∧
      (∃ b, h.frameLens.long = 2 ^ b)) ∧
    (∀ ch rate brs s s4 s1, readU8Bits 4 s = .ok s4 s1 →
      (1 <<< s4 < 64 ∨ 1 <<< s4 > 8192) →
      Header.readFrameLensTail ch rate brs s =
        .err (.undecodable "Invalid short frame length") s1) ∧
    (∀ ch rate brs s s4 s1 l4 s2, readU8Bits 4 s = .ok s4 s1 →
      ¬(1 <<< s4 < 64 ∨ 1 <<< s4 > 8192) →
      readU8Bits 4 s1 = .ok l4 s2 →
      (1 <<< l4 < 64 ∨ 1 <<< l4 > 8192) →
      Header.readFrameLensTail ch rate brs s =
        .err (.undecodable "Invalid long frame length") s2) ∧
    (∀ ch rate brs s s4 s1 l4 s2, readU8Bits 4 s = .ok s4 s1 →
      ¬(1 <<< s4 < 64 ∨ 1 <<< s4 > 8192) →
      readU8Bits 4 s1 = .ok l4 s2 →
      ¬(1 <<< l4 < 64 ∨ 1 <<< l4 > 8192) →
      1 <<< l4 < 1 <<< s4 →
      Header.readFrameLensTail ch rate brs s =
        .err (.undecodable "Long frame is shorter than short frame") s2) := by
  refine ⟨?_, ?_, ?_, ?_⟩
  · intro s h s' heq
    unfold Header.read at heq
    split at heq <;> try exact StRes.noConfusion heq
    split at heq <;> try exact StRes.noConfusion heq
    split at heq <;> try exact StRes.noConfusion heq
    split at heq <;> try exact StRes.noConfusion heq
    split at heq <;> try exact StRes.noConfusion heq
    split at heq <;> try exact StRes.noConfusion heq
    split at heq <;> try exact StRes.noConfusion heq
    split at heq <;> try exact StRes.noConfusion heq
    split at heq <;> try exact StRes.noConfusion heq
    unfold Header.readFrameLensTail at heq
    simp only [] at heq
    split at heq <;> try exact StRes.noConfusion heq
    split at heq <;> try exact StRes.noConfusion heq
    split at heq <;> try exact StRes.noConfusion heq
    split at heq <;> try exact StRes.noConfusion heq
    split at heq <;> try exact StRes.noConfusion heq
    split at heq <;> try exact StRes.noConfusion heq
    split at heq <;> try exact StRes.noConfusion heq
    cases heq
    dsimp only []
    refine ⟨by omega, by omega, by omega, ⟨_, (Nat.one_shiftLeft _)⟩,
      ⟨_, (Nat.one_shiftLeft _)⟩⟩
  · intro ch rate brs s s4 s1 hrd hbad
    unfold Header.readFrameLensTail
    rw [hrd]
    simp only []
    rw [if_pos hbad]
  · intro ch rate brs s s4 s1 l4 s2 hrd hgood hrd2 hbad
    unfold Header.readFrameLensTail
    rw [hrd]
    simp only []
    rw [if_neg hgood, hrd2]
    simp only []
    rw [if_pos hbad]
  · intro ch rate brs s s4 s1 l4 s2 hrd hgood hrd2 hgood2 hrel
    unfold Header.readFrameLensTail
    rw [hrd]
    simp only []
    rw [if_neg hgood, hrd2]
    simp only []
    rw [if_neg hgood2, if_pos hrel]

theorem header_frame_len_validation_witness :
    (64 ≤ (⟨1, 1, ⟨0, 0, 0⟩, ⟨64, 64⟩⟩ : Header).frameLens.short ∧
      (⟨1, 1, ⟨0, 0, 0⟩, ⟨64, 64⟩⟩ : Header).frameLens.short ≤
        (⟨1, 1, ⟨0, 0, 0⟩, ⟨64, 64⟩⟩ : Header).frameLens.long ∧
      (⟨1, 1, ⟨0, 0, 0⟩, ⟨64, 64⟩⟩ : Header).frameLens.long ≤ 8192 ∧
      (∃ a, (⟨1, 1, ⟨0, 0, 0⟩, ⟨64, 64⟩⟩ : Header).frameLens.short = 2 ^ a) ∧
      (∃ b, (⟨1, 1, ⟨0, 0, 0⟩, ⟨64, 64⟩⟩ : Header).frameLens.long = 2 ^ b)) ∧
    Header.readFrameLensTail 1 1 ⟨0, 0, 0⟩ ⟨[0x0F], 0, 0⟩ =
      .err (.undecodable "Invalid short frame length") ⟨[], 0, 4⟩ ∧
    Header.readFrameLensTail 1 1 ⟨0, 0, 0⟩ ⟨[0xF6], 0, 0⟩ =
      .err (.undecodable "Invalid long frame length") ⟨[], 0, 0⟩ ∧
    Header.readFrameLensTail 1 1 ⟨0, 0, 0⟩ ⟨[0x67], 0, 0⟩ =
      .err (.undecodable "Long frame is shorter than short frame") ⟨[], 0, 0⟩ :=
  ⟨header_frame_len_validation.1
      ⟨[0, 0, 0, 0, 1, 1, 0, 0, 0, 0, 0, 0, 0, 0, 0, 0, 0, 0, 0, 0, 0, 0x66, 1], 0, 0⟩
      ⟨1, 1, ⟨0, 0, 0⟩, ⟨64, 64⟩⟩ ⟨[], 0, 7⟩ (by decide),
    header_frame_len_validation.2.1 1 1 ⟨0, 0, 0⟩ ⟨[0x0F], 0, 0⟩ 15 ⟨[], 0, 4⟩
      (by rfl) (by decide),
    header_frame_len_validation.2.2.1 1 1 ⟨0, 0, 0⟩ ⟨[0xF6], 0, 0⟩ 6 ⟨[], 15, 4⟩ 15 ⟨[], 0, 0⟩
      (by rfl) (by decide) (by rfl) (by decide),
    header_frame_len_validation.2.2.2 1 1 ⟨0, 0, 0⟩ ⟨[0x67], 0, 0⟩ 7 ⟨[], 6, 4⟩ 6 ⟨[], 0, 0⟩
      (by rfl) (by decide) (by rfl) (by decide) (by decide)⟩
